import Mathlib

/-!
Verification of the matrix-offload client/server pair (server.cpp, client/main.cpp).

Floats are modelled as `WithBot ℚ`: an idealised linearly ordered field with a
bottom element standing for `-std::numeric_limits<float>::infinity()`, the
initial value of the row-maximum accumulator. Buffers are `List F` in row-major
order. The per-connection session handler is embedded as a pure step function
from a session state and a parsed command to a new state, a trace of I/O and
thread events, and a keep-connection flag; the concurrent worker's successful
completion is embedded as `worker_finish`, which applies the deterministic
result of the data-race-free row-partitioned computation.
-/

namespace MatrixServer

/-- Float values: rationals with `-inf` adjoined (`⊥`). -/
abbrev F := WithBot ℚ

/-! ## Protocol constants (server.cpp lines 17-23) -/

def CMD_CONFIG_DATA : Nat := 1
def CMD_START_COMP : Nat := 2
def CMD_GET_STATUS : Nat := 3
def RESP_ACK : Nat := 10
def RESP_STATUS_PENDING : Nat := 11
def RESP_RESULT : Nat := 12
def RESP_ERROR : Nat := 13

/-! ## Worker computation (server.cpp `process_matrix_rows`, `perform_computation`) -/

/-- The inner `j` loop of `process_matrix_rows`: starting from
`maxVal = -inf`, scan `matrix[rowStart + j]` for `j < size` and keep the
largest value seen (`if (matrix[rowStartIndex + j] > maxVal) maxVal = ...`). -/
def rowMax (m : List F) (rowStart size : Nat) : F :=
  (List.range size).foldl
    (fun maxVal j => if m.getD (rowStart + j) ⊥ > maxVal then m.getD (rowStart + j) ⊥ else maxVal)
    ⊥

/-- One iteration of the outer `i` loop of `process_matrix_rows`: compute the
row maximum and, guarded by `i < size`, write it to the diagonal cell
`matrix[i*size + i]`. -/
def processRow (size : Nat) (m : List F) (i : Nat) : List F :=
  if i < size then m.set (i * size + i) (rowMax m (i * size) size) else m

/-- `process_matrix_rows` (server.cpp lines 137-147): apply `processRow` to
each row `i ∈ [startRow, endRow)`. -/
def process_matrix_rows (m : List F) (size startRow endRow : Nat) : List F :=
  (List.range' startRow (endRow - startRow)).foldl (processRow size) m

/-- The chunk-spawning loop of `perform_computation` (server.cpp lines 166-173),
indexed by the remaining loop counter values. Each iteration computes
`rows = q + (i < r ? 1 : 0)`; if `rows > 0 && startRow < size` it spawns the
chunk `[startRow, min (startRow + rows) size)` and advances `startRow`. -/
def chunksLoop (size q r : Nat) : List Nat → Nat → List (Nat × Nat)
  | [], _ => []
  | i :: rest, startRow =>
    let rows := q + (if i < r then 1 else 0)
    if rows > 0 ∧ startRow < size then
      (startRow, min (startRow + rows) size) :: chunksLoop size q r rest (min (startRow + rows) size)
    else
      chunksLoop size q r rest startRow

/-- The list of `(startRow, endRow)` row chunks spawned by `perform_computation`
for matrix side `size` and requested thread count `T`
(`threads_to_use = max(1u, numThreads)`, server.cpp line 160). -/
def chunks (size T : Nat) : List (Nat × Nat) :=
  let t := max 1 T
  chunksLoop size (size / t) (size % t) (List.range t) 0

/-- The result buffer produced by a successful `perform_computation`
(server.cpp lines 149-178): copy the input into the result buffer, then run
`process_matrix_rows` on each spawned chunk. The chunks write pairwise
disjoint rows, so the concurrent execution is deterministic and equal to this
sequential fold. -/
def perform_computation (size T : Nat) (input : List F) : List F :=
  (chunks size T).foldl (fun m c => process_matrix_rows m size c.1 c.2) input

/-! ## Session state machine (server.cpp `ClientState`, `handle_client`) -/

/-- `ClientState` (server.cpp lines 25-45). `workerJoinable` models whether
`workerThread.joinable()` holds, i.e. a spawned worker has not yet been
joined. -/
structure ClientState where
  matrixSize : Nat
  numThreads : Nat
  matrixData : List F
  resultData : List F
  dataReceived : Bool
  processingStarted : Bool
  processingDone : Bool
  errorOccurred : Bool
  workerJoinable : Bool
  deriving DecidableEq, Repr

/-- A parsed command as read off the wire by `handle_client`. For
`CONFIG_DATA` the payload is the `N·N` floats the client would send. -/
inductive Cmd where
  | configData (N T : Nat) (payload : List F)
  | startComp
  | getStatus
  | unknown (tag : Nat)
  deriving DecidableEq, Repr

/-- Observable I/O and thread events of the session handler, in program
order. -/
inductive Event where
  | recvU32 (v : Nat)
  | recvFloats (count : Nat)
  | sendU32 (v : Nat)
  | sendFloats (data : List F)
  | joinWorker
  | spawnWorker
  deriving DecidableEq, Repr

/-- Result of handling one command: the new session state, the event trace of
the handler body, and whether the connection stays open. -/
structure StepResult where
  state : ClientState
  trace : List Event
  keep : Bool
  deriving DecidableEq, Repr

/-- One iteration of the `handle_client` command loop (server.cpp lines
221-295), on the happy transport path (every send/recv succeeds).

* `CONFIG_DATA` (lines 222-244): `recv` N and T into the state, reject
  `N == 0 || N > 3000` with `RESP_ERROR` and connection close, otherwise
  receive the `N·N`-float payload, reset the phase flags, join a still
  joinable previous worker, and ack.
* `START_COMP` (lines 245-267): `RESP_ERROR` if no data was received;
  `RESP_ACK` without restart if already processing; otherwise join any
  previous worker, set `processingStarted`, clear `processingDone` and
  `errorOccurred`, spawn the worker thread and ack.
* `GET_STATUS` (lines 268-289): inspect `errorOccurred`, then
  `processingDone`, then `processingStarted`; send the matching response,
  with `RESP_RESULT` followed by `matrixSize` and the result floats.
* unknown tag (lines 290-294): `RESP_ERROR`, connection stays open. -/
def handle_command (s : ClientState) : Cmd → StepResult
  | .configData N T payload =>
    let s1 := { s with matrixSize := N, numThreads := T }
    if N = 0 ∨ 3000 < N then
      { state := s1
        trace := [.recvU32 N, .recvU32 T, .sendU32 RESP_ERROR]
        keep := false }
    else
      { state := { s1 with matrixData := payload, dataReceived := true,
                           processingStarted := false, processingDone := false,
                           errorOccurred := false, workerJoinable := false }
        trace := [.recvU32 N, .recvU32 T, .recvFloats (N * N)]
                   ++ (if s.workerJoinable then [.joinWorker] else [])
                   ++ [.sendU32 RESP_ACK]
        keep := true }
  | .startComp =>
    if s.dataReceived = false then
      { state := s, trace := [.sendU32 RESP_ERROR], keep := true }
    else if s.processingStarted = true then
      { state := s, trace := [.sendU32 RESP_ACK], keep := true }
    else
      { state := { s with processingStarted := true, processingDone := false,
                          errorOccurred := false, workerJoinable := true }
        trace := (if s.workerJoinable then [.joinWorker] else [])
                   ++ [.spawnWorker, .sendU32 RESP_ACK]
        keep := true }
  | .getStatus =>
    if s.errorOccurred = true then
      { state := s, trace := [.sendU32 RESP_ERROR], keep := true }
    else if s.processingDone = true then
      { state := s
        trace := [.sendU32 RESP_RESULT, .sendU32 s.matrixSize, .sendFloats s.resultData]
        keep := true }
    else if s.processingStarted = true then
      { state := s, trace := [.sendU32 RESP_STATUS_PENDING], keep := true }
    else
      { state := s, trace := [.sendU32 RESP_ERROR], keep := true }
  | .unknown _ =>
    { state := s, trace := [.sendU32 RESP_ERROR], keep := true }

/-- Effect on the session state of the worker thread completing successfully
(server.cpp lines 151-178 success path and line 189): the result buffer holds
the transformed copy of the input, `processingDone` is set, `errorOccurred`
cleared, and `processingStarted` cleared. -/
def worker_finish (s : ClientState) : ClientState :=
  { s with resultData := perform_computation s.matrixSize s.numThreads s.matrixData
           processingDone := true
           errorOccurred := false
           processingStarted := false }

/-! ## Codec: `recv_uint32` (server.cpp lines 72-91) -/

/-- Outcome of the underlying `recv(sock, buf, 4, MSG_WAITALL)` call:
either some prefix of bytes was delivered before the peer closed or the full
4 bytes arrived (`bytes bs` with `bs.length ≤ 4`), or the call failed with
`SOCKET_ERROR`. -/
inductive RecvRaw where
  | bytes (bs : List Nat)
  | sockError
  deriving DecidableEq, Repr

/-- The diagnostic category `recv_uint32` writes to the log, which is the only
place the three failure causes are told apart. -/
inductive RecvLog where
  | noLog
  | disconnected
  | transportError
  | incompleteData
  deriving DecidableEq, Repr

/-- Big-endian decoding of a byte string, as performed by receiving the raw
bytes into a `uint32_t` and applying `ntohl`. -/
def decodeBE (bs : List Nat) : Nat :=
  bs.foldl (fun acc b => acc * 256 + b % 256) 0

/-- `recv_uint32`: on exactly 4 bytes, return the big-endian decoded value;
on 0 bytes log a graceful-disconnect message, on `SOCKET_ERROR` log a
transport error, on 1-3 bytes log incomplete data. In every failure case the
caller-visible result is the same `none` (C++: `return false`). -/
def recv_uint32 : RecvRaw → Option Nat × RecvLog
  | .bytes bs =>
    if bs.length = 4 then (some (decodeBE bs), .noLog)
    else if bs.length = 0 then (none, .disconnected)
    else (none, .incompleteData)
  | .sockError => (none, .transportError)

/-! ## Client CLI argument handling (client/main.cpp lines 126-139) -/

/-- Effective `(matrixSize, numThreads)` computed by the client's `main` from
its positional arguments. `none` stands for a missing argument or one
`std::stoul` failed to parse (the `catch (...)` keeps the default). A parsed
value that is `0` or above the bound is replaced by the default
(`DEFAULT_MATRIX_SIZE = 5`, `DEFAULT_NUM_THREADS = 2`). -/
def clientArgs (arg1 arg2 : Option Nat) : Nat × Nat :=
  let matrixSize := arg1.getD 5
  let numThreads := arg2.getD 2
  let matrixSize := if matrixSize = 0 ∨ 5000 < matrixSize then 5 else matrixSize
  let numThreads := if numThreads = 0 ∨ 128 < numThreads then 2 else numThreads
  (matrixSize, numThreads)

/-! ## The chunk partition in closed form

`chunkStart N T i` is the value of the loop variable `startRow` at the start
of iteration `i` of the spawning loop in `perform_computation`, for `T ≥ 1`:
the first `i` iterations allot `N / T` rows each plus one extra row for each
of the first `min i (N % T)` iterations. -/

def chunkStart (N T i : Nat) : Nat :=
  i * (N / T) + min i (N % T)

lemma chunkStart_zero (N T : Nat) : chunkStart N T 0 = 0 := by
  simp [chunkStart]

lemma chunkStart_succ (N T i : Nat) :
    chunkStart N T (i + 1) = chunkStart N T i + (N / T + if i < N % T then 1 else 0) := by
  unfold chunkStart
  rcases lt_or_ge i (N % T) with h | h
  · rw [if_pos h, min_eq_left (Nat.succ_le_of_lt h), min_eq_left h.le]
    simp only [Nat.succ_eq_add_one]
    ring
  · rw [if_neg (not_lt.mpr h), min_eq_right h, min_eq_right (le_trans h (Nat.le_succ i))]
    ring

lemma chunkStart_mono (N T : Nat) : Monotone (chunkStart N T) := by
  apply monotone_nat_of_le_succ
  intro i
  rw [chunkStart_succ]
  exact Nat.le_add_right _ _

lemma chunkStart_min_eq (N T : Nat) (hT : 1 ≤ T) : chunkStart N T (min T N) = N := by
  rcases le_or_lt T N with h | h
  · rw [min_eq_left h]
    unfold chunkStart
    rw [min_eq_right (le_of_lt (Nat.mod_lt N hT))]
    exact Nat.div_add_mod N T
  · rw [min_eq_right h.le]
    unfold chunkStart
    rw [Nat.div_eq_of_lt h, Nat.mod_eq_of_lt h]
    simp

lemma chunk_rows_pos (N T i : Nat) (hT : 1 ≤ T) (hi : i < min T N) :
    0 < N / T + if i < N % T then 1 else 0 := by
  rcases Nat.eq_zero_or_pos (N / T) with hq | hq
  · have hNT : N < T := by
      have hd := Nat.div_add_mod N T
      have hm := Nat.mod_lt N hT
      rw [hq, Nat.mul_zero, Nat.zero_add] at hd
      omega
    have hr : N % T = N := Nat.mod_eq_of_lt hNT
    have : i < N := lt_of_lt_of_le hi (min_le_right _ _)
    rw [hq, hr, if_pos this]
    omega
  · exact lt_of_lt_of_le hq (Nat.le_add_right _ _)

lemma chunkStart_lt (N T i : Nat) (hT : 1 ≤ T) (hi : i < min T N) :
    chunkStart N T i < N := by
  have h1 : chunkStart N T i < chunkStart N T (i + 1) := by
    rw [chunkStart_succ]
    exact Nat.lt_add_of_pos_right (chunk_rows_pos N T i hT hi)
  have h2 : chunkStart N T (i + 1) ≤ chunkStart N T (min T N) :=
    chunkStart_mono N T (Nat.succ_le_of_lt hi)
  rw [chunkStart_min_eq N T hT] at h2
  exact lt_of_lt_of_le h1 h2

lemma chunksLoop_closed (N T : Nat) (hN : 1 ≤ N) (hT : 1 ≤ T) :
    ∀ m i, i + m = T →
      chunksLoop N (N / T) (N % T) (List.range' i m) (chunkStart N T i) =
        (List.range' i (min T N - i)).map
          (fun k => (chunkStart N T k, chunkStart N T (k + 1))) := by
  intro m
  induction m with
  | zero =>
    intro i hi
    have hc : min T N - i = 0 := by
      have : min T N ≤ T := min_le_left _ _
      omega
    simp [chunksLoop, hc]
  | succ m ih =>
    intro i hi
    rw [List.range'_succ]
    show chunksLoop N (N / T) (N % T) (i :: List.range' (i + 1) m) (chunkStart N T i) = _
    rcases lt_or_ge i (min T N) with hic | hic
    · -- spawning iteration
      have hrows : 0 < N / T + if i < N % T then 1 else 0 := chunk_rows_pos N T i hT hic
      have hlt : chunkStart N T i < N := chunkStart_lt N T i hT hic
      have hsuccle : chunkStart N T (i + 1) ≤ N := by
        have := chunkStart_mono N T (Nat.succ_le_of_lt hic)
        rw [chunkStart_min_eq N T hT] at this
        exact this
      have hend : min (chunkStart N T i + (N / T + if i < N % T then 1 else 0)) N =
          chunkStart N T (i + 1) := by
        rw [← chunkStart_succ]
        exact min_eq_left hsuccle
      rw [chunksLoop]
      simp only [hend, if_pos (And.intro hrows hlt)]
      rw [ih (i + 1) (by omega)]
      have hsub : min T N - i = (min T N - (i + 1)) + 1 := by omega
      rw [hsub, List.range'_succ, List.map_cons]
    · -- skipped iteration: only possible when N < T and all rows are exhausted
      have hiT : i < T := by omega
      have hNT : N < T := by
        rcases le_or_lt T N with h | h
        · rw [min_eq_left h] at hic; omega
        · exact h
      have hq : N / T = 0 := Nat.div_eq_of_lt hNT
      have hr : N % T = N := Nat.mod_eq_of_lt hNT
      have hiN : ¬ i < N := by
        rw [min_eq_right hNT.le] at hic
        omega
      have hrows0 : N / T + (if i < N % T then 1 else 0) = 0 := by
        rw [hq, hr, if_neg hiN]
      have hstay : chunkStart N T i = chunkStart N T (i + 1) := by
        unfold chunkStart
        rw [hq, hr]
        simp only [Nat.mul_zero, Nat.zero_add]
        rw [min_eq_right (by omega : N ≤ i), min_eq_right (by omega : N ≤ i + 1)]
      rw [chunksLoop]
      simp only [hrows0]
      rw [if_neg (by simp)]
      rw [hstay, ih (i + 1) (by omega)]
      have h1 : min T N - i = 0 := by omega
      have h2 : min T N - (i + 1) = 0 := by omega
      rw [h1, h2]
      simp

lemma chunks_eq (N T : Nat) (hN : 1 ≤ N) (hT : 1 ≤ T) :
    chunks N T =
      (List.range (min T N)).map (fun k => (chunkStart N T k, chunkStart N T (k + 1))) := by
  unfold chunks
  simp only [max_eq_right hT]
  have h := chunksLoop_closed N T hN hT T 0 (by omega)
  rw [chunkStart_zero] at h
  rw [List.range_eq_range', h, List.range_eq_range']
  simp

/-- Concatenating consecutive index ranges `[S k, S (k+1))` for `k ∈ [a, a+b)`
yields the single range `[S a, S (a+b))`, for any monotone `S`. -/
lemma flatten_ranges (S : Nat → Nat) (hS : Monotone S) :
    ∀ b a, ((List.range' a b).map (fun k => List.range' (S k) (S (k + 1) - S k))).flatten =
      List.range' (S a) (S (a + b) - S a) := by
  intro b
  induction b with
  | zero => intro a; simp
  | succ b ih =>
    intro a
    rw [List.range'_succ, List.map_cons, List.flatten_cons, ih (a + 1)]
    have h1 : S a ≤ S (a + 1) := hS (Nat.le_succ a)
    have h2 : S (a + 1) ≤ S (a + 1 + b) := hS (Nat.le_add_right _ _)
    have h3 : S (a + 1 + b) = S (a + (b + 1)) := by
      have : a + 1 + b = a + (b + 1) := by omega
      rw [this]
    have happ := List.range'_append (S a) (S (a + 1) - S a) (S (a + 1 + b) - S (a + 1)) 1
    rw [Nat.one_mul, Nat.add_sub_cancel' h1] at happ
    rw [happ]
    congr 1
    omega

/-- `rowMax` computes the `Finset.sup` of the row values: folding
`if x > acc then x else acc` from `⊥` is the supremum. -/
lemma rowMax_eq_sup (m : List F) (rowStart size : Nat) :
    rowMax m rowStart size =
      Finset.sup (Finset.range size) (fun j => m.getD (rowStart + j) ⊥) := by
  have step : ∀ (acc : F) (x : F), (if x > acc then x else acc) = acc ⊔ x := by
    intro acc x
    rcases lt_or_ge acc x with h | h
    · rw [if_pos h, sup_eq_max, max_eq_right h.le]
    · rw [if_neg (not_lt.mpr h), sup_eq_max, max_eq_left h]
  unfold rowMax
  induction size with
  | zero => simp
  | succ n ih =>
    rw [List.range_succ, List.foldl_append, Finset.range_succ, Finset.sup_insert]
    simp only [List.foldl_cons, List.foldl_nil]
    rw [step, ih, sup_comm]

lemma getD_set_self (l : List F) (i : Nat) (v : F) (h : i < l.length) :
    (l.set i v).getD i ⊥ = v := by
  simp [List.getD_eq_getElem?_getD, List.getElem?_set, h]

lemma getD_set_ne (l : List F) {i j : Nat} (v : F) (h : i ≠ j) :
    (l.set i v).getD j ⊥ = l.getD j ⊥ := by
  simp [List.getD_eq_getElem?_getD, List.getElem?_set, h]

/-- Row-major index pairs are injective below the side length. -/
lemma rowmajor_inj {N a b a' b' : Nat} (hb : b < N) (hb' : b' < N)
    (h : a * N + b = a' * N + b') : a = a' ∧ b = b' := by
  have hN : 0 < N := Nat.pos_of_ne_zero (by omega)
  have ha : (a * N + b) / N = a := by
    rw [Nat.add_comm, Nat.add_mul_div_right b a hN, Nat.div_eq_of_lt hb]
    omega
  have ha' : (a' * N + b') / N = a' := by
    rw [Nat.add_comm, Nat.add_mul_div_right b' a' hN, Nat.div_eq_of_lt hb']
    omega
  have haa : a = a' := by rw [← ha, ← ha', h]
  constructor
  · exact haa
  · have := h
    rw [haa] at this
    omega

/-- The spawned chunks are contiguous, pairwise disjoint, and cover `[0, N)`
in order: concatenating their row ranges yields `0, …, N-1`. -/
lemma chunks_cover (N T : Nat) (hN : 1 ≤ N) (hT : 1 ≤ T) :
    ((chunks N T).map (fun c => List.range' c.1 (c.2 - c.1))).flatten = List.range N := by
  have hflat := flatten_ranges (chunkStart N T) (chunkStart_mono N T) (min T N) 0
  rw [Nat.zero_add, chunkStart_zero, chunkStart_min_eq N T hT, Nat.sub_zero] at hflat
  have hcomp : ((fun c : Nat × Nat => List.range' c.1 (c.2 - c.1)) ∘
      fun k => (chunkStart N T k, chunkStart N T (k + 1))) =
      fun k => List.range' (chunkStart N T k) (chunkStart N T (k + 1) - chunkStart N T k) :=
    rfl
  rw [chunks_eq N T hN hT, List.map_map, hcomp, List.range_eq_range', hflat]
  exact (List.range_eq_range' N).symm

/-- `perform_computation` equals the sequential fold of `processRow` over all
rows `0, …, N-1`: the spawned chunks partition `[0, N)` in order. -/
lemma perform_computation_eq_rows (N T : Nat) (hN : 1 ≤ N) (hT : 1 ≤ T)
    (input : List F) :
    perform_computation N T input = (List.range N).foldl (processRow N) input := by
  unfold perform_computation process_matrix_rows
  rw [← chunks_cover N T hN hT, List.foldl_flatten, List.foldl_map]

/-- After sequentially processing the first `k` rows, each processed row
carries the supremum of its original input row on the diagonal and every
other cell still holds the input value. -/
lemma rows_foldl_spec (N : Nat) (input : List F) (hlen : input.length = N * N) :
    ∀ k, k ≤ N →
      ((List.range k).foldl (processRow N) input).length = N * N ∧
      ∀ a b, a < N → b < N →
        ((List.range k).foldl (processRow N) input).getD (a * N + b) ⊥ =
          if b = a ∧ a < k
          then Finset.sup (Finset.range N) (fun j => input.getD (a * N + j) ⊥)
          else input.getD (a * N + b) ⊥ := by
  intro k
  induction k with
  | zero =>
    intro _
    refine ⟨hlen, ?_⟩
    intro a b _ _
    simp
  | succ k ih =>
    intro hk
    have hkN : k < N := hk
    obtain ⟨ihlen, ihval⟩ := ih (le_of_lt hkN)
    rw [List.range_succ, List.foldl_append]
    set m := (List.range k).foldl (processRow N) input with hm
    simp only [List.foldl_cons, List.foldl_nil]
    have hstep : processRow N m k = m.set (k * N + k) (rowMax m (k * N) N) := by
      unfold processRow
      rw [if_pos hkN]
    have hidx : k * N + k < N * N := by
      have h1 : k * N + k < (k + 1) * N := by
        have h2 : (k + 1) * N = k * N + N := by ring
        omega
      exact lt_of_lt_of_le h1 (Nat.mul_le_mul_right N (Nat.succ_le_of_lt hkN))
    have hrow : rowMax m (k * N) N =
        Finset.sup (Finset.range N) (fun j => input.getD (k * N + j) ⊥) := by
      rw [rowMax_eq_sup]
      apply Finset.sup_congr rfl
      intro j hj
      rw [Finset.mem_range] at hj
      rw [ihval k j hkN hj, if_neg (by omega : ¬(j = k ∧ k < k))]
    rw [hstep]
    constructor
    · rw [List.length_set, ihlen]
    · intro a b ha hb
      rcases eq_or_ne (a * N + b) (k * N + k) with he | he
      · obtain ⟨hak, hbk⟩ := rowmajor_inj hb hkN he
        rw [he, getD_set_self m _ _ (by rw [ihlen]; exact hidx)]
        rw [if_pos (by omega : b = a ∧ a < k + 1), hrow, hak]
      · rw [getD_set_ne m _ (Ne.symm he), ihval a b ha hb]
        have hiff : (b = a ∧ a < k) ↔ (b = a ∧ a < k + 1) := by
          constructor
          · rintro ⟨h1, h2⟩
            exact ⟨h1, by omega⟩
          · rintro ⟨h1, h2⟩
            refine ⟨h1, ?_⟩
            rcases Nat.lt_succ_iff_lt_or_eq.mp h2 with h3 | h3
            · exact h3
            · exfalso
              apply he
              rw [h1, h3]
        rw [if_congr hiff rfl rfl]

/-- `CLAIM C1` supporting lemma: the full computation puts row suprema on the
diagonal and leaves every off-diagonal cell untouched. -/
lemma perform_computation_spec (N T : Nat) (hN : 1 ≤ N) (hT : 1 ≤ T)
    (input : List F) (hlen : input.length = N * N) (i j : Nat)
    (hi : i < N) (hj : j < N) :
    (perform_computation N T input).getD (i * N + j) ⊥ =
      if j = i
      then Finset.sup (Finset.range N) (fun k => input.getD (i * N + k) ⊥)
      else input.getD (i * N + j) ⊥ := by
  rw [perform_computation_eq_rows N T hN hT input]
  have h := (rows_foldl_spec N input hlen N (le_refl N)).2 i j hi hj
  rw [h]
  have hiff : (j = i ∧ i < N) ↔ (j = i) := by
    constructor
    · exact fun hh => hh.1
    · exact fun hh => ⟨hh, hi⟩
  rw [if_congr hiff rfl rfl]

/-! ## Concrete session states used to instantiate claims -/

/-- A session in the Done phase: data configured, worker finished
successfully and not yet joined. -/
def doneState : ClientState :=
  { matrixSize := 1, numThreads := 1, matrixData := [5], resultData := [5],
    dataReceived := true, processingStarted := false, processingDone := true,
    errorOccurred := false, workerJoinable := true }

/-- A session in the Running phase: a worker task from a previous START is
outstanding. -/
def runningState : ClientState :=
  { matrixSize := 1, numThreads := 1, matrixData := [5], resultData := [5],
    dataReceived := true, processingStarted := true, processingDone := false,
    errorOccurred := false, workerJoinable := true }

/-- A configured 2×2 session (`input = [[1,2],[3,4]]`, `T = 1`) whose worker
is running. -/
def sampleState : ClientState :=
  { matrixSize := 2, numThreads := 1, matrixData := [1, 2, 3, 4], resultData := [],
    dataReceived := true, processingStarted := true, processingDone := false,
    errorOccurred := false, workerJoinable := true }

/-! ## Claims -/

/-- CLAIM C1: for every input matrix of side `N` (`1 ≤ N ≤ 3000`) and every
requested parallelism `T ≥ 1`, when the worker completes successfully
(`done = 1`) the result buffer has, in every row `i`, the maximum of the
original input row `i` at `result[i][i]`, and every off-diagonal cell equals
the original input cell. -/
theorem claim1_result_diagonal (s : ClientState)
    (hN : 1 ≤ s.matrixSize) (hcap : s.matrixSize ≤ 3000) (hT : 1 ≤ s.numThreads)
    (hlen : s.matrixData.length = s.matrixSize * s.matrixSize) :
    (worker_finish s).processingDone = true ∧
    ∀ i j, i < s.matrixSize → j < s.matrixSize →
      (worker_finish s).resultData.getD (i * s.matrixSize + j) ⊥ =
        if j = i
        then Finset.sup (Finset.range s.matrixSize)
          (fun k => s.matrixData.getD (i * s.matrixSize + k) ⊥)
        else s.matrixData.getD (i * s.matrixSize + j) ⊥ := by
  refine ⟨rfl, ?_⟩
  intro i j hi hj
  show (perform_computation s.matrixSize s.numThreads s.matrixData).getD _ ⊥ = _
  exact perform_computation_spec s.matrixSize s.numThreads hN hT s.matrixData hlen i j hi hj

/-- Witness for C1 at `N = 2`, `T = 1`, input `[[1,2],[3,4]]`: the diagonal
cell of row 1 is the row maximum `4`. -/
theorem claim1_witness :
    (worker_finish sampleState).resultData.getD (1 * 2 + 1) ⊥ =
      Finset.sup (Finset.range 2) (fun k => ([1, 2, 3, 4] : List F).getD (1 * 2 + k) ⊥) := by
  have h := (claim1_result_diagonal sampleState
    (by decide) (by decide) (by decide) (by decide)).2 1 1 (by decide) (by decide)
  simpa [sampleState] using h

/-- Counterexample to CLAIM C2: in the Done state (`configured = 1`,
`done = 1`, `running = 0`, `failed = 0`) a `CMD_START` is answered with
`RESP_ACK`, not `RESP_ERROR`, and a new worker is spawned. -/
theorem claim2_counterexample :
    (handle_command doneState .startComp).trace =
      [Event.joinWorker, Event.spawnWorker, Event.sendU32 RESP_ACK] ∧
    Event.sendU32 RESP_ERROR ∉ (handle_command doneState .startComp).trace ∧
    Event.spawnWorker ∈ (handle_command doneState .startComp).trace ∧
    (handle_command doneState .startComp).state.processingStarted = true := by
  decide

/-- CLAIM C2 (amended): in session state Done (`configured = 1`, `done = 1`,
`running = 0`, `failed = 0`) a `CMD_START` command is answered with
`RESP_ACK` and restarts the computation: the handler joins the finished
worker if still joinable, clears `done`/`failed`, sets `running`, and spawns
a new worker. -/
theorem claim2_start_in_done_restarts (s : ClientState)
    (hc : s.dataReceived = true) (hr : s.processingStarted = false)
    (hd : s.processingDone = true) (hf : s.errorOccurred = false) :
    (handle_command s .startComp).trace =
      (if s.workerJoinable then [Event.joinWorker] else []) ++
        [Event.spawnWorker, Event.sendU32 RESP_ACK] ∧
    (handle_command s .startComp).state.processingStarted = true ∧
    (handle_command s .startComp).state.processingDone = false ∧
    (handle_command s .startComp).keep = true := by
  simp [handle_command, hc, hr]

/-- Witness for the amended C2 at the concrete Done state. -/
theorem claim2_witness :
    (handle_command doneState .startComp).trace =
      [Event.joinWorker, Event.spawnWorker, Event.sendU32 RESP_ACK] ∧
    (handle_command doneState .startComp).state.processingStarted = true := by
  have h := claim2_start_in_done_restarts doneState rfl rfl rfl rfl
  refine ⟨?_, h.2.1⟩
  have h1 := h.1
  simpa [doneState] using h1

/-- Counterexample to CLAIM C3: on a `CONFIG_DATA` processed while a worker
is outstanding, the handler receives the `N·N`-float payload first and joins
the worker only afterwards, so the join does not precede the payload
receive. -/
theorem claim3_counterexample :
    (handle_command runningState (.configData 1 1 [3])).trace =
      [Event.recvU32 1, Event.recvU32 1, Event.recvFloats 1, Event.joinWorker,
        Event.sendU32 RESP_ACK] ∧
    ¬ ((handle_command runningState (.configData 1 1 [3])).trace.indexOf Event.joinWorker <
        (handle_command runningState (.configData 1 1 [3])).trace.indexOf (Event.recvFloats 1)) := by
  decide

/-- CLAIM C3 (amended): for every `CONFIG_DATA` with valid `N` processed
while a worker task is outstanding, the handler receives the `N·N`-float
payload into the input buffer first (so the receive overlaps the outstanding
worker), and joins the worker after the payload receive and before sending
the `RESP_ACK` acknowledgment. -/
theorem claim3_join_after_payload (s : ClientState) (N T : Nat) (payload : List F)
    (hjoin : s.workerJoinable = true) (hN1 : 1 ≤ N) (hcap : N ≤ 3000) :
    (handle_command s (.configData N T payload)).trace =
      [Event.recvU32 N, Event.recvU32 T, Event.recvFloats (N * N), Event.joinWorker,
        Event.sendU32 RESP_ACK] := by
  have hvalid : ¬ (N = 0 ∨ 3000 < N) := by omega
  simp [handle_command, hvalid, hjoin]

/-- Witness for the amended C3 at the concrete Running state. -/
theorem claim3_witness :
    (handle_command runningState (.configData 1 1 [3])).trace =
      [Event.recvU32 1, Event.recvU32 1, Event.recvFloats 1, Event.joinWorker,
        Event.sendU32 RESP_ACK] := by
  have h := claim3_join_after_payload runningState 1 1 [3] rfl (by decide) (by decide)
  simpa using h

/-- CLAIM C4: on every `CMD_GET_STATUS` the session leaves its state
unchanged and inspects the phase flags in the priority order
`failed → done → running → (none)`: it replies `RESP_ERROR` if `failed`,
else `RESP_RESULT` followed by the result size and the result floats if
`done`, else `RESP_STATUS_PENDING` if `running`, else `RESP_ERROR`. -/
theorem claim4_status_priority (s : ClientState) :
    (handle_command s .getStatus).state = s ∧
    (handle_command s .getStatus).keep = true ∧
    (s.errorOccurred = true →
      (handle_command s .getStatus).trace = [Event.sendU32 RESP_ERROR]) ∧
    (s.errorOccurred = false → s.processingDone = true →
      (handle_command s .getStatus).trace =
        [Event.sendU32 RESP_RESULT, Event.sendU32 s.matrixSize,
          Event.sendFloats s.resultData]) ∧
    (s.errorOccurred = false → s.processingDone = false → s.processingStarted = true →
      (handle_command s .getStatus).trace = [Event.sendU32 RESP_STATUS_PENDING]) ∧
    (s.errorOccurred = false → s.processingDone = false → s.processingStarted = false →
      (handle_command s .getStatus).trace = [Event.sendU32 RESP_ERROR]) := by
  cases hE : s.errorOccurred <;> cases hD : s.processingDone <;>
    cases hS : s.processingStarted <;> simp [handle_command, hE, hD, hS]

/-- Witness for C4 in the Done phase: `RESP_RESULT` followed by size and
payload. -/
theorem claim4_witness :
    (handle_command doneState .getStatus).trace =
      [Event.sendU32 RESP_RESULT, Event.sendU32 1, Event.sendFloats [5]] := by
  have h := (claim4_status_priority doneState).2.2.2.1 rfl rfl
  simpa [doneState] using h

/-- CLAIM C5: for every `N ∈ [1, 3000]` and `T ≥ 1` the worker spawns exactly
`min T N` row-chunk tasks; with `q = ⌊N / T⌋` and `r = N mod T` the `k`-th
spawned chunk has `q + 1` rows for `k < r` and `q` rows otherwise (zero-row
chunks being omitted), and the chunks are contiguous, pairwise disjoint, and
together cover `[0, N)`. -/
theorem claim5_chunk_partition (N T : Nat) (hN1 : 1 ≤ N) (hcap : N ≤ 3000)
    (hT : 1 ≤ T) :
    (chunks N T).length = min T N ∧
    (∀ k (hk : k < (chunks N T).length),
      ((chunks N T).get ⟨k, hk⟩).2 - ((chunks N T).get ⟨k, hk⟩).1 =
        N / T + (if k < N % T then 1 else 0)) ∧
    ((chunks N T).map (fun c => List.range' c.1 (c.2 - c.1))).flatten = List.range N := by
  refine ⟨?_, ?_, chunks_cover N T hN1 hT⟩
  · rw [chunks_eq N T hN1 hT]
    simp
  · intro k hk
    have hk' : k < min T N := by
      rw [chunks_eq N T hN1 hT, List.length_map, List.length_range] at hk
      exact hk
    have hget : (chunks N T).get ⟨k, hk⟩ = (chunkStart N T k, chunkStart N T (k + 1)) := by
      rw [List.get_eq_getElem]
      have hrw := chunks_eq N T hN1 hT
      rw [List.getElem_of_eq hrw, List.getElem_map, List.getElem_range]
    rw [hget, chunkStart_succ]
    simp

/-- Witness for C5 at `N = 4`, `T = 8` (more threads than rows): exactly
`min 8 4 = 4` one-row chunks covering `[0, 4)`. -/
theorem claim5_witness :
    (chunks 4 8).length = min 8 4 ∧
    ((chunks 4 8).map (fun c => List.range' c.1 (c.2 - c.1))).flatten = List.range 4 := by
  have h := claim5_chunk_partition 4 8 (by decide) (by decide) (by decide)
  exact ⟨h.1, h.2.2⟩

/-- CLAIM C6: a `CONFIG_DATA` carrying `N = 0` or `N > 3000` is answered with
`RESP_ERROR` and the connection is closed without reading any float payload,
whereas for `0 < N ≤ 3000` the handler reads the `N·N`-float payload and the
connection stays open. -/
theorem claim6_config_validation (s : ClientState) (N T : Nat) (payload : List F) :
    (N = 0 ∨ 3000 < N →
      (handle_command s (.configData N T payload)).trace =
        [Event.recvU32 N, Event.recvU32 T, Event.sendU32 RESP_ERROR] ∧
      (∀ c, Event.recvFloats c ∉ (handle_command s (.configData N T payload)).trace) ∧
      (handle_command s (.configData N T payload)).keep = false) ∧
    (1 ≤ N → N ≤ 3000 →
      Event.recvFloats (N * N) ∈ (handle_command s (.configData N T payload)).trace ∧
      (handle_command s (.configData N T payload)).keep = true) := by
  constructor
  · intro h
    refine ⟨by simp [handle_command, h], ?_, by simp [handle_command, h]⟩
    intro c
    simp [handle_command, h]
  · intro h1 h2
    have hvalid : ¬ (N = 0 ∨ 3000 < N) := by omega
    constructor
    · simp [handle_command, hvalid]
    · simp [handle_command, hvalid]

/-- Witness for C6: `N = 0` is rejected with the connection closed and no
payload read; `N = 1` is accepted with the payload read. -/
theorem claim6_witness :
    ((handle_command doneState (.configData 0 1 [])).trace =
      [Event.recvU32 0, Event.recvU32 1, Event.sendU32 RESP_ERROR] ∧
     (handle_command doneState (.configData 0 1 [])).keep = false) ∧
    (Event.recvFloats 1 ∈ (handle_command doneState (.configData 1 1 [3])).trace ∧
     (handle_command doneState (.configData 1 1 [3])).keep = true) := by
  have h0 := (claim6_config_validation doneState 0 1 []).1 (Or.inl rfl)
  have h1 := (claim6_config_validation doneState 1 1 [3]).2 (by decide) (by decide)
  have hmem : Event.recvFloats (1 * 1) ∈ (handle_command doneState (.configData 1 1 [3])).trace :=
    h1.1
  exact ⟨⟨h0.1, h0.2.2⟩, ⟨by simpa using hmem, h1.2⟩⟩

/-- CLAIM C7: `CMD_GET_STATUS` does not modify the session state, and after a
status poll answered `RESP_RESULT` every subsequent poll (with no intervening
`CONFIG_DATA` or `CMD_START`) returns `RESP_RESULT` again with the same size
and a byte-identical result payload. -/
theorem claim7_status_idempotent (s : ClientState)
    (hf : s.errorOccurred = false) (hd : s.processingDone = true) :
    (handle_command s .getStatus).state = s ∧
    (handle_command s .getStatus).trace =
      [Event.sendU32 RESP_RESULT, Event.sendU32 s.matrixSize,
        Event.sendFloats s.resultData] ∧
    handle_command (handle_command s .getStatus).state .getStatus =
      handle_command s .getStatus := by
  have h1 : (handle_command s .getStatus).state = s := by
    simp [handle_command, hf, hd]
  refine ⟨h1, ?_, by rw [h1]⟩
  simp [handle_command, hf, hd]

/-- Witness for C7 at the concrete Done state. -/
theorem claim7_witness :
    (handle_command doneState .getStatus).state = doneState ∧
    handle_command (handle_command doneState .getStatus).state .getStatus =
      handle_command doneState .getStatus := by
  have h := claim7_status_idempotent doneState rfl rfl
  exact ⟨h.1, h.2.2⟩

/-- Counterexample to CLAIM C8: the stream ending at byte 0 and the stream
ending after 2 bytes yield the identical caller-visible result (`none`, C++
`return false`), so the failure causes are not distinguishable to the
caller. -/
theorem claim8_counterexample :
    (recv_uint32 (.bytes [])).1 = none ∧
    (recv_uint32 (.bytes [0, 1])).1 = none ∧
    (recv_uint32 (.bytes [])).1 = (recv_uint32 (.bytes [0, 1])).1 := by
  decide

/-- CLAIM C8 (amended): `recv_uint32` reads exactly 4 bytes and returns the
big-endian decoded value; when the stream ends at byte 0 it logs a
graceful-disconnect diagnostic, when it ends between bytes 1-3 an
incomplete-data diagnostic, and on a socket error a transport-error
diagnostic, but in all three failure cases it returns the same failure value
to the caller: the causes are told apart only in the log. -/
theorem claim8_recv_uint32 :
    (∀ bs : List Nat, bs.length = 4 →
      recv_uint32 (.bytes bs) = (some (decodeBE bs), RecvLog.noLog)) ∧
    recv_uint32 (.bytes []) = (none, RecvLog.disconnected) ∧
    (∀ bs : List Nat, 1 ≤ bs.length → bs.length ≤ 3 →
      recv_uint32 (.bytes bs) = (none, RecvLog.incompleteData)) ∧
    recv_uint32 .sockError = (none, RecvLog.transportError) := by
  refine ⟨?_, rfl, ?_, rfl⟩
  · intro bs h
    simp [recv_uint32, h]
  · intro bs h1 h3
    show (if bs.length = 4 then ((some (decodeBE bs) : Option Nat), RecvLog.noLog)
      else if bs.length = 0 then (none, RecvLog.disconnected)
      else (none, RecvLog.incompleteData)) = (none, RecvLog.incompleteData)
    rw [if_neg (by omega), if_neg (by omega)]

/-- Witness for the amended C8: a 4-byte read decodes big-endian, a 2-byte
read fails with the incomplete-data diagnostic. -/
theorem claim8_witness :
    recv_uint32 (.bytes [0, 0, 1, 2]) = (some 258, RecvLog.noLog) ∧
    recv_uint32 (.bytes [0, 1]) = (none, RecvLog.incompleteData) := by
  have h := claim8_recv_uint32
  refine ⟨?_, h.2.2.1 [0, 1] (by decide) (by decide)⟩
  have h4 := h.1 [0, 0, 1, 2] (by decide)
  rw [h4]
  decide

/-- Counterexample to CLAIM C9: the client argument `6000` exceeds the upper
bound `5000`, and the effective matrix size is the default `5`, not the
bound `5000` a clamp would produce. -/
theorem claim9_counterexample :
    clientArgs (some 6000) (some 2) = (5, 2) ∧
    clientArgs (some 6000) (some 2) ≠ (5000, 2) := by
  decide

/-- CLAIM C9 (amended): the effective `matrix_size` is the first positional
argument when it lies in `(0, 5000]` and the default `5` otherwise (also
when the argument is missing or unparsable); the effective `num_threads` is
the second positional argument when it lies in `(0, 128]` and the default
`2` otherwise; in particular an argument above the upper bound yields the
default, not the bound. -/
theorem claim9_client_args (m t : Nat) :
    clientArgs none none = (5, 2) ∧
    (1 ≤ m → m ≤ 5000 → ∀ b, (clientArgs (some m) b).1 = m) ∧
    (m = 0 ∨ 5000 < m → ∀ b, (clientArgs (some m) b).1 = 5) ∧
    (1 ≤ t → t ≤ 128 → ∀ a, (clientArgs a (some t)).2 = t) ∧
    (t = 0 ∨ 128 < t → ∀ a, (clientArgs a (some t)).2 = 2) := by
  refine ⟨rfl, ?_, ?_, ?_, ?_⟩
  · intro h1 h2 b
    have hm : ¬ (m = 0 ∨ 5000 < m) := by omega
    simp [clientArgs, hm]
  · intro h b
    simp [clientArgs, h]
  · intro h1 h2 a
    have ht : ¬ (t = 0 ∨ 128 < t) := by omega
    simp [clientArgs, ht]
  · intro h a
    simp [clientArgs, h]

/-- Witness for the amended C9: in-range arguments pass through, an
out-of-range thread count falls back to the default. -/
theorem claim9_witness :
    (clientArgs (some 7) (some 200)).1 = 7 ∧
    (clientArgs (some 7) (some 200)).2 = 2 := by
  have h := claim9_client_args 7 200
  exact ⟨(h.2.1 (by decide) (by decide)) (some 200), (h.2.2.2.2 (by decide)) (some 7)⟩

/-- CLAIM C10: the server never validates the requested worker count `T`:
every `CONFIG_DATA` with valid `N` and any 32-bit `T` (including `0` and
values above 128) is accepted and acknowledged with `RESP_ACK`, the session
stores `T` unchanged, and the worker uses `max 1 T` threads, so `T = 0`
behaves exactly like `T = 1`. -/
theorem claim10_threads_unvalidated (s : ClientState) (N T : Nat)
    (payload : List F) (hN1 : 1 ≤ N) (hcap : N ≤ 3000) (hT32 : T < 2 ^ 32) :
    (handle_command s (.configData N T payload)).state.numThreads = T ∧
    (handle_command s (.configData N T payload)).keep = true ∧
    Event.sendU32 RESP_ACK ∈ (handle_command s (.configData N T payload)).trace ∧
    Event.sendU32 RESP_ERROR ∉ (handle_command s (.configData N T payload)).trace ∧
    (∀ input : List F, perform_computation N 0 input = perform_computation N 1 input) := by
  have hvalid : ¬ (N = 0 ∨ 3000 < N) := by omega
  refine ⟨?_, ?_, ?_, ?_, ?_⟩
  · simp [handle_command, hvalid]
  · simp [handle_command, hvalid]
  · cases hj : s.workerJoinable <;> simp [handle_command, hvalid, hj]
  · cases hj : s.workerJoinable <;>
      simp [handle_command, hvalid, hj, RESP_ERROR, RESP_ACK]
  · intro input
    show (chunks N 0).foldl _ input = (chunks N 1).foldl _ input
    have hc : chunks N 0 = chunks N 1 := rfl
    rw [hc]

/-- Witness for C10: `T = 0` is accepted on a valid `CONFIG_DATA` and the
computation for `T = 0` coincides with `T = 1`. -/
theorem claim10_witness :
    (handle_command doneState (.configData 1 0 [3])).state.numThreads = 0 ∧
    Event.sendU32 RESP_ACK ∈ (handle_command doneState (.configData 1 0 [3])).trace ∧
    perform_computation 1 0 [5] = perform_computation 1 1 [5] := by
  have h := claim10_threads_unvalidated doneState 1 0 [3] (by decide) (by decide) (by decide)
  exact ⟨h.1, h.2.2.1, h.2.2.2.2 [5]⟩

end MatrixServer
